import Mathlib

/-!
Verification of the range-addressable video streaming path of the
vid-share backend (src/app/routers/consumers.py, stream_video and its
inner generator generate_chunks; src/app/blob_storage.py,
download_blob_chunk).

The embedding models:
  * Python int(str) conversion (pyInt), returning none where Python
    raises ValueError;
  * the Range-header parsing of stream_video lines 60-69
    (resolve_range);
  * the validation and response assembly of lines 71-92 (stream_video);
  * the chunk loop of lines 74-83 (generate_chunks) over an abstract
    store, with an explicit fuel bound so non-termination of the source
    loop is observable as a none result.

Machine integers do not occur: Python integers are unbounded, so Int is
the faithful carrier for sizes and offsets.
-/

namespace VidShare

/-- Python str.replace(pat, repl) over character lists: every
non-overlapping occurrence of pat is replaced, scanning left to right.
The fuel argument (instantiated with the input length by replaceAll)
keeps the recursion structural so the kernel can evaluate it; one
character of input is consumed per unit of fuel at least, so fuel equal
to the input length is always enough. -/
def replaceAllAux (pat repl : List Char) : Nat → List Char → List Char
  | 0, s => s
  | _ + 1, [] => []
  | fuel + 1, c :: cs =>
    if pat ≠ [] ∧ (c :: cs).take pat.length = pat then
      repl ++ replaceAllAux pat repl fuel ((c :: cs).drop pat.length)
    else
      c :: replaceAllAux pat repl fuel cs

/-- Python str.replace(pat, repl) over character lists. -/
def replaceAll (pat repl s : List Char) : List Char :=
  replaceAllAux pat repl s.length s

/-- Python str.split(sep) for a one-character separator: split at every
occurrence, keeping empty parts; the empty string splits to [""], so
the result is always non-empty. -/
def splitOnChar (sep : Char) : List Char → List (List Char)
  | [] => [[]]
  | c :: cs =>
    match splitOnChar sep cs with
    | [] => [[]]
    | p :: ps => if c = sep then [] :: p :: ps else (c :: p) :: ps

/-- The literal "bytes=" stripped from the header at consumers.py
line 64. -/
def BYTES_EQ : List Char := ['b', 'y', 't', 'e', 's', '=']

/-- Python str.strip() whitespace trimming, as performed by int(str). -/
def trimChars (s : List Char) : List Char :=
  ((s.dropWhile Char.isWhitespace).reverse.dropWhile Char.isWhitespace).reverse

/-- Model of the Python builtin int(str) used at consumers.py lines 65
and 67: some n when the string parses as a decimal integer, none when
Python would raise ValueError. Covers the standard forms exercised by
the handler (optional surrounding whitespace, optional sign, one or
more decimal digits); exotic literal forms (underscores, non-ASCII
digits) are outside this development. -/
def pyInt (s : List Char) : Option Int :=
  let t := trimChars s
  let core := if t.take 1 = ['-'] ∨ t.take 1 = ['+'] then t.drop 1 else t
  if core ≠ [] ∧ core.all Char.isDigit then
    let mag : Int := core.foldl (fun acc c => acc * 10 + ((c.toNat - 48 : Nat) : Int)) 0
    some (if t.take 1 = ['-'] then -mag else mag)
  else none

/-- Outcome of the header-parsing block: either concrete start and end
bytes, or an uncaught Python ValueError escaping from int(). -/
inductive RangeParse where
  | ok (start_byte end_byte : Int)
  | valueError
deriving DecidableEq

/-- Lines 60-69 of consumers.py: start_byte and end_byte default to the
full object (0 and file_size - 1); when the range header is truthy in
Python (present and non-empty) the header is stripped of the literal
"bytes=", split on "-", part 0 parsed as start_byte, and part 1, when
present and non-empty, parsed as end_byte (otherwise end_byte stays
file_size - 1). replaceAll and splitOnChar model the Python
str.replace / str.split calls (replace all occurrences; split on every
separator keeping empty parts); the Python truthiness test on the
header (None and the empty string are falsy) selects the default
branch. -/
def resolve_range (file_size : Int) (range : Option String) : RangeParse :=
  let start_byte : Int := 0
  let end_byte : Int := file_size - 1
  match range with
  | none => .ok start_byte end_byte
  | some r =>
    if r.data = [] then .ok start_byte end_byte
    else
      let range_parts := splitOnChar '-' (replaceAll BYTES_EQ [] r.data)
      match pyInt (range_parts.getD 0 []) with
      | none => .valueError
      | some s =>
        if range_parts.length > 1 ∧ range_parts.getD 1 [] ≠ [] then
          match pyInt (range_parts.getD 1 []) with
          | none => .valueError
          | some e => .ok s e
        else .ok s end_byte

/-- Response headers assembled at consumers.py lines 85-90. The numeric
header values are kept as integers (the source stringifies them). -/
structure StreamHeaders where
  contentType : String
  acceptRanges : String
  contentLength : Int
  contentRangeStart : Int
  contentRangeEnd : Int
  contentRangeFileSize : Int
deriving DecidableEq

/-- Result of the stream_video handler after the blob size is known:
an HTTPException with a status code and no body or streaming headers,
an uncaught ValueError (which the server surfaces as a 500-class error),
or a streaming response whose headers are committed before any body
chunk; start_byte and end_byte record the range handed to
generate_chunks for the body. -/
inductive StreamResult where
  | httpError (statusCode : Nat)
  | valueError
  | streaming (statusCode : Nat) (headers : StreamHeaders) (start_byte end_byte : Int)
deriving DecidableEq

/-- Status code the client observes: HTTPException carries its own code,
an uncaught ValueError is rendered by the framework as 500, and a
streaming response uses the code passed to StreamingResponse. -/
def StreamResult.statusOf : StreamResult → Nat
  | .httpError s => s
  | .valueError => 500
  | .streaming s _ _ _ => s

/-- Lines 58-92 of consumers.py, from the point the blob size is known
(the 404 catalog lookup and the size query are upstream of this model):
parse the optional header, reject start bytes outside [0, file_size)
with 416, otherwise build the 206 streaming response whose body is
generate_chunks over start_byte..end_byte. -/
def stream_video (file_size : Int) (range : Option String) : StreamResult :=
  match resolve_range file_size range with
  | .valueError => .valueError
  | .ok start_byte end_byte =>
    if start_byte ≥ file_size ∨ start_byte < 0 then
      .httpError 416
    else
      .streaming 206
        { contentType := "video/mp4"
          acceptRanges := "bytes"
          contentLength := end_byte - start_byte + 1
          contentRangeStart := start_byte
          contentRangeEnd := end_byte
          contentRangeFileSize := file_size }
        start_byte end_byte

/-- Bytes of an ideal blob, read as the n consecutive bytes starting at
offset o of an unbounded content function. -/
def readSliceN (blob : Int → UInt8) : Int → Nat → List UInt8
  | _, 0 => []
  | o, n + 1 => blob o :: readSliceN blob (o + 1) n

/-- download_blob_chunk (blob_storage.py lines 42-58) under an ideal
store: the Azure range download with offset start_byte and length
end_byte - start_byte + 1 returns exactly the bytes of the inclusive
range start_byte..end_byte of the blob. -/
def download_blob_chunk (blob : Int → UInt8) (start_byte end_byte : Int) : List UInt8 :=
  readSliceN blob start_byte (end_byte + 1 - start_byte).toNat

/-- The chunk size hard-coded at consumers.py line 76. -/
def CHUNK_SIZE : Int := 1024 * 1024

/-- One iteration of the generator loop: the read issued to the store
(inclusive readStart..readEnd) and the bytes the store returned, which
are also the bytes yielded downstream. -/
structure RelayStep where
  readStart : Int
  readEnd : Int
  chunk : List UInt8
deriving DecidableEq

/-- Lines 74-83 of consumers.py: the generate_chunks loop over an
abstract store (the source calls blob_storage.download_blob_chunk).
current_offset starts at start_byte; while current_offset <= end_byte
the loop reads up to min (current_offset + chunk_size - 1) end_byte,
yields the chunk, and advances by the number of bytes actually
returned. The loop is modelled with explicit fuel: none means the loop
has not finished within fuel iterations (so a result of none for every
fuel witnesses non-termination). chunk_size is a parameter; the source
fixes it to CHUNK_SIZE. -/
def generate_chunks (store : Int → Int → List UInt8) (chunk_size end_byte : Int) :
    Nat → Int → Option (List RelayStep)
  | 0, _ => none
  | fuel + 1, current_offset =>
    if current_offset ≤ end_byte then
      let chunk_end := min (current_offset + chunk_size - 1) end_byte
      let chunk := store current_offset chunk_end
      match generate_chunks store chunk_size end_byte fuel (current_offset + chunk.length) with
      | some rest => some (⟨current_offset, chunk_end, chunk⟩ :: rest)
      | none => none
    else
      some []

theorem readSliceN_length (blob : Int → UInt8) (o : Int) (n : Nat) :
    (readSliceN blob o n).length = n := by
  induction n generalizing o with
  | zero => rfl
  | succ n ih => simp [readSliceN, ih]

theorem readSliceN_append (blob : Int → UInt8) (o : Int) (m n : Nat) :
    readSliceN blob o m ++ readSliceN blob (o + m) n = readSliceN blob o (m + n) := by
  induction m generalizing o with
  | zero => simp [readSliceN]
  | succ m ih =>
    have h1 : o + ((m : Int) + 1) = (o + 1) + m := by ring
    simp only [readSliceN, Nat.succ_add, List.cons_append]
    rw [show ((m + 1 : Nat) : Int) = (m : Int) + 1 by push_cast; ring, h1, ih]

/-- Core invariant of the generate_chunks loop over a store that
returns, for each requested read o..e, the first retLen o e bytes of
the blob at offset o, where the returned count is at least 1 and at
most the requested count. With fuel exceeding the number of remaining
bytes the loop terminates, and its trace satisfies the relay contract:
reads are bounded by the range, read offsets are strictly increasing
and advance by the actual returned length, chunks are non-empty, and
the concatenated chunks are exactly the bytes of the range. -/
theorem generate_chunks_spec (blob : Int → UInt8) (store : Int → Int → List UInt8)
    (retLen : Int → Int → Nat) (chunk_size end_byte : Int) (hC : 1 ≤ chunk_size)
    (hstore : ∀ o e, store o e = readSliceN blob o (retLen o e))
    (hret : ∀ o e, o ≤ e → 1 ≤ retLen o e ∧ (retLen o e : Int) ≤ e + 1 - o) :
    ∀ (fuel : Nat) (offset : Int), (end_byte + 1 - offset).toNat < fuel →
    ∃ tr, generate_chunks store chunk_size end_byte fuel offset = some tr ∧
      (tr.map RelayStep.chunk).flatten = readSliceN blob offset (end_byte + 1 - offset).toNat ∧
      (∀ st ∈ tr, offset ≤ st.readStart ∧ st.readStart ≤ st.readEnd ∧
        st.readEnd ≤ end_byte ∧ st.readEnd = min (st.readStart + chunk_size - 1) end_byte ∧
        st.chunk = store st.readStart st.readEnd ∧ st.chunk ≠ []) ∧
      List.Pairwise (fun a b => a.readStart < b.readStart) tr ∧
      (∀ st, tr.head? = some st → st.readStart = offset) ∧
      List.Chain' (fun a b => b.readStart = a.readStart + (a.chunk.length : Int)) tr := by
  intro fuel
  induction fuel with
  | zero => intro offset h; exact absurd h (Nat.not_lt_zero _)
  | succ f ih =>
    intro offset h
    by_cases hoff : offset ≤ end_byte
    · have hce1 : offset ≤ min (offset + chunk_size - 1) end_byte :=
        le_min (by omega) hoff
      have hce2 : min (offset + chunk_size - 1) end_byte ≤ end_byte := min_le_right _ _
      obtain ⟨hL1, hL2⟩ := hret offset (min (offset + chunk_size - 1) end_byte) hce1
      have hchunk : store offset (min (offset + chunk_size - 1) end_byte) =
          readSliceN blob offset (retLen offset (min (offset + chunk_size - 1) end_byte)) :=
        hstore _ _
      have hlen : (store offset (min (offset + chunk_size - 1) end_byte)).length =
          retLen offset (min (offset + chunk_size - 1) end_byte) := by
        rw [hchunk, readSliceN_length]
      obtain ⟨tr, htr, hjoin, hall, hpw, hhd, hch⟩ :=
        ih (offset + (retLen offset (min (offset + chunk_size - 1) end_byte) : Int)) (by omega)
      refine ⟨⟨offset, min (offset + chunk_size - 1) end_byte,
          store offset (min (offset + chunk_size - 1) end_byte)⟩ :: tr, ?_, ?_, ?_, ?_, ?_, ?_⟩
      · simp only [generate_chunks, if_pos hoff]
        rw [hlen, htr]
      · simp only [List.map_cons, List.flatten_cons, hchunk, hjoin]
        rw [readSliceN_append]
        congr 1
        omega
      · intro st hst
        rcases List.mem_cons.mp hst with hst | hst
        · subst hst
          refine ⟨le_refl _, hce1, hce2, rfl, rfl, ?_⟩
          show store offset (min (offset + chunk_size - 1) end_byte) ≠ []
          rw [hchunk]
          intro hnil
          have hl := readSliceN_length blob offset
            (retLen offset (min (offset + chunk_size - 1) end_byte))
          rw [hnil] at hl
          simp at hl
          omega
        · obtain ⟨g1, g2, g3, g4, g5, g6⟩ := hall st hst
          exact ⟨by omega, g2, g3, g4, g5, g6⟩
      · refine List.pairwise_cons.mpr ⟨?_, hpw⟩
        intro b hb
        have hb1 := (hall b hb).1
        show offset < b.readStart
        omega
      · intro st hst
        have heq := Option.some.inj hst
        rw [← heq]
      · refine List.chain'_cons'.mpr ⟨?_, hch⟩
        intro b hb
        have hb' : tr.head? = some b := hb
        have hbr := hhd b hb'
        show b.readStart =
          offset + ((store offset (min (offset + chunk_size - 1) end_byte)).length : Int)
        rw [hlen, hbr]
    · refine ⟨[], ?_, ?_, ?_, ?_, ?_, ?_⟩
      · simp only [generate_chunks, if_neg hoff]
      · have h0 : (end_byte + 1 - offset).toNat = 0 := by omega
        simp [h0, readSliceN]
      · intro st hst
        exact absurd hst (List.not_mem_nil st)
      · exact List.Pairwise.nil
      · intro st hst
        exact absurd hst (by simp)
      · simp

/-- C3: the source loop has no zero-byte guard: against a store that
returns zero bytes, current_offset never advances, so for every fuel
bound the loop is still running (no finished trace exists, and no
ShortRead error is ever signalled — the code has no error signal at
all). This holds for any chunk size and any start at or before the end
byte. -/
theorem generate_chunks_zero_read_no_termination (chunk_size end_byte : Int)
    (fuel : Nat) (start_byte : Int) (h : start_byte ≤ end_byte) :
    generate_chunks (fun _ _ => []) chunk_size end_byte fuel start_byte = none := by
  induction fuel with
  | zero => rfl
  | succ f ih => simp [generate_chunks, h, ih]

/-- Concrete instance of the zero-read divergence: range 0..9 with the
source chunk size, store always returning zero bytes, 1000 iterations
of fuel and the loop still has not finished. -/
theorem generate_chunks_zero_read_no_termination_witness :
    generate_chunks (fun _ _ => []) (1024 * 1024) 9 1000 0 = none :=
  generate_chunks_zero_read_no_termination (1024 * 1024) 9 1000 0 (by decide)

/-- C4: over a store that returns exactly the requested bytes
(download_blob_chunk of the ideal blob), the relay loop terminates
within fuel exceeding the byte count, every issued read is
readStart..min (readStart + chunk_size - 1) end_byte, read offsets are
strictly ascending and advance by each chunk's length, every yielded
chunk is non-empty, and the concatenated chunks are byte-for-byte a
direct single read of the range, of length end_byte - start_byte + 1. -/
theorem generate_chunks_exact_store (blob : Int → UInt8)
    (chunk_size start_byte end_byte : Int) (hC : 1 ≤ chunk_size)
    (fuel : Nat) (hfuel : (end_byte + 1 - start_byte).toNat < fuel) :
    ∃ tr, generate_chunks (download_blob_chunk blob) chunk_size end_byte fuel start_byte
        = some tr ∧
      (tr.map RelayStep.chunk).flatten = download_blob_chunk blob start_byte end_byte ∧
      ((tr.map RelayStep.chunk).flatten).length = (end_byte + 1 - start_byte).toNat ∧
      (∀ st ∈ tr, st.chunk ≠ [] ∧ st.readEnd = min (st.readStart + chunk_size - 1) end_byte) ∧
      List.Pairwise (fun a b => a.readStart < b.readStart) tr ∧
      List.Chain' (fun a b => b.readStart = a.readStart + (a.chunk.length : Int)) tr ∧
      (∀ st, tr.head? = some st → st.readStart = start_byte) := by
  obtain ⟨tr, h1, h2, h3, h4, h5, h6⟩ :=
    generate_chunks_spec blob (download_blob_chunk blob) (fun o e => (e + 1 - o).toNat)
      chunk_size end_byte hC (fun o e => rfl)
      (fun o e ho => by dsimp only; constructor <;> omega)
      fuel start_byte hfuel
  refine ⟨tr, h1, h2, ?_, ?_, h4, h6, h5⟩
  · rw [h2]
    exact readSliceN_length _ _ _
  · intro st hst
    exact ⟨(h3 st hst).2.2.2.2.2, (h3 st hst).2.2.2.1⟩

/-- Concrete run for C4: chunk size 10 over range 0..24 terminates with
the claimed trace properties, and the reads issued are exactly
0..9, 10..19, 20..24. -/
theorem generate_chunks_exact_store_witness :
    (∃ tr, generate_chunks (download_blob_chunk (fun _ => (0 : UInt8))) 10 24 26 0
        = some tr ∧
      (tr.map RelayStep.chunk).flatten = download_blob_chunk (fun _ => (0 : UInt8)) 0 24 ∧
      ((tr.map RelayStep.chunk).flatten).length = ((24 : Int) + 1 - 0).toNat ∧
      (∀ st ∈ tr, st.chunk ≠ [] ∧ st.readEnd = min (st.readStart + 10 - 1) 24) ∧
      List.Pairwise (fun a b => a.readStart < b.readStart) tr ∧
      List.Chain' (fun a b => b.readStart = a.readStart + (a.chunk.length : Int)) tr ∧
      (∀ st, tr.head? = some st → st.readStart = 0)) ∧
    (generate_chunks (download_blob_chunk (fun _ => (0 : UInt8))) 10 24 26 0).map
      (fun tr => tr.map fun st => (st.readStart, st.readEnd)) = some [(0, 9), (10, 19), (20, 24)] :=
  ⟨generate_chunks_exact_store (fun _ => (0 : UInt8)) 10 0 24 (by decide) 26 (by decide),
    by decide⟩

/-- C8: the cursor advances by the number of bytes actually returned,
so against any store that returns a non-empty portion of each requested
span from its start (short reads allowed: at least 1 byte, at most the
requested count), the loop still terminates, never issues a read
starting past end_byte, issues reads at strictly ascending offsets with
each next offset equal to the previous offset plus the previous chunk's
actual length, and concatenates to exactly the
end_byte - start_byte + 1 bytes of the range in order. -/
theorem generate_chunks_short_reads (blob : Int → UInt8) (retLen : Int → Int → Nat)
    (chunk_size start_byte end_byte : Int) (hC : 1 ≤ chunk_size)
    (hret : ∀ o e, o ≤ e → 1 ≤ retLen o e ∧ (retLen o e : Int) ≤ e + 1 - o)
    (fuel : Nat) (hfuel : (end_byte + 1 - start_byte).toNat < fuel) :
    ∃ tr, generate_chunks (fun o e => readSliceN blob o (retLen o e)) chunk_size end_byte
        fuel start_byte = some tr ∧
      (tr.map RelayStep.chunk).flatten = download_blob_chunk blob start_byte end_byte ∧
      ((tr.map RelayStep.chunk).flatten).length = (end_byte + 1 - start_byte).toNat ∧
      (∀ st ∈ tr, st.readStart ≤ end_byte ∧ st.chunk ≠ []) ∧
      List.Pairwise (fun a b => a.readStart < b.readStart) tr ∧
      List.Chain' (fun a b => b.readStart = a.readStart + (a.chunk.length : Int)) tr := by
  obtain ⟨tr, h1, h2, h3, h4, h5, h6⟩ :=
    generate_chunks_spec blob (fun o e => readSliceN blob o (retLen o e)) retLen
      chunk_size end_byte hC (fun o e => rfl) hret fuel start_byte hfuel
  refine ⟨tr, h1, h2, ?_, ?_, h4, h6⟩
  · rw [h2]
    exact readSliceN_length _ _ _
  · intro st hst
    obtain ⟨g1, g2, g3, g4, g5, g6⟩ := h3 st hst
    exact ⟨le_trans g2 g3, g6⟩

/-- Concrete run for C8: a store capped at 5 bytes per read under chunk
size 10 over range 0..24 still terminates with the full 25 bytes. -/
theorem generate_chunks_short_reads_witness :
    ∃ tr, generate_chunks
        (fun o e => readSliceN (fun _ => (0 : UInt8)) o (min 5 (e + 1 - o).toNat)) 10 24
        26 0 = some tr ∧
      (tr.map RelayStep.chunk).flatten = download_blob_chunk (fun _ => (0 : UInt8)) 0 24 ∧
      ((tr.map RelayStep.chunk).flatten).length = ((24 : Int) + 1 - 0).toNat ∧
      (∀ st ∈ tr, st.readStart ≤ 24 ∧ st.chunk ≠ []) ∧
      List.Pairwise (fun a b => a.readStart < b.readStart) tr ∧
      List.Chain' (fun a b => b.readStart = a.readStart + (a.chunk.length : Int)) tr :=
  generate_chunks_short_reads (fun _ => (0 : UInt8)) (fun o e => min 5 (e + 1 - o).toNat)
    10 0 24 (by decide) (fun o e ho => by dsimp only; constructor <;> omega) 26 (by decide)

/-- C10: any completed run of the loop over a store returning non-empty
chunks issues only reads with
start_byte ≤ readStart ≤ readEnd ≤ end_byte, at strictly increasing
offsets. -/
theorem generate_chunks_read_invariant (store : Int → Int → List UInt8)
    (chunk_size end_byte : Int) (hC : 1 ≤ chunk_size)
    (hne : ∀ o e, store o e ≠ []) :
    ∀ (fuel : Nat) (start_byte : Int) (tr : List RelayStep),
      generate_chunks store chunk_size end_byte fuel start_byte = some tr →
      (∀ st ∈ tr, start_byte ≤ st.readStart ∧ st.readStart ≤ st.readEnd ∧
        st.readEnd ≤ end_byte) ∧
      List.Pairwise (fun a b => a.readStart < b.readStart) tr := by
  intro fuel
  induction fuel with
  | zero =>
    intro start_byte tr h
    exact absurd h (by simp [generate_chunks])
  | succ f ih =>
    intro start_byte tr h
    by_cases hoff : start_byte ≤ end_byte
    · simp only [generate_chunks, if_pos hoff] at h
      cases hrec : generate_chunks store chunk_size end_byte f
          (start_byte + (store start_byte (min (start_byte + chunk_size - 1) end_byte)).length)
        with
      | none =>
        rw [hrec] at h
        exact absurd h (by simp)
      | some rest =>
        rw [hrec] at h
        obtain rfl := (Option.some.inj h).symm
        have hlen : 1 ≤ (store start_byte (min (start_byte + chunk_size - 1) end_byte)).length :=
          List.length_pos.mpr (hne _ _)
        obtain ⟨hallr, hpwr⟩ := ih _ rest hrec
        constructor
        · intro st hst
          rcases List.mem_cons.mp hst with hst | hst
          · subst hst
            refine ⟨le_refl _, ?_, ?_⟩
            · show start_byte ≤ min (start_byte + chunk_size - 1) end_byte
              exact le_min (by omega) hoff
            · show min (start_byte + chunk_size - 1) end_byte ≤ end_byte
              exact min_le_right _ _
          · have hr := hallr st hst
            exact ⟨by omega, hr.2.1, hr.2.2⟩
        · refine List.pairwise_cons.mpr ⟨?_, hpwr⟩
          intro b hb
          have hr := (hallr b hb).1
          show start_byte < b.readStart
          omega
    · simp only [generate_chunks, if_neg hoff] at h
      obtain rfl := (Option.some.inj h).symm
      exact ⟨fun st hst => absurd hst (List.not_mem_nil st), List.Pairwise.nil⟩

/-- Concrete instance for C10: a three-read run with chunk size 2 over
range 0..2 satisfies the read-bound and ascending-offset invariants. -/
theorem generate_chunks_read_invariant_witness :
    (∀ st ∈ [(⟨0, 1, [0]⟩ : RelayStep), ⟨1, 2, [0]⟩, ⟨2, 2, [0]⟩],
      (0 : Int) ≤ st.readStart ∧ st.readStart ≤ st.readEnd ∧ st.readEnd ≤ 2) ∧
    List.Pairwise (fun a b => a.readStart < b.readStart)
      [(⟨0, 1, [0]⟩ : RelayStep), ⟨1, 2, [0]⟩, ⟨2, 2, [0]⟩] :=
  generate_chunks_read_invariant (fun _ _ => [0]) 2 2 (by decide)
    (fun _ _ => List.cons_ne_nil _ _)
    5 0 [⟨0, 1, [0]⟩, ⟨1, 2, [0]⟩, ⟨2, 2, [0]⟩] (by decide)

/-- C1 counterexample: object size 100 with header bytes=90-500 is
served with end byte 500 — Content-Length 411 and Content-Range
bytes 90-500/100 — not the clamped end byte 99 with Content-Length 10
that the claim states. -/
theorem stream_video_no_clamp_cex :
    stream_video 100 (some "bytes=90-500") =
      .streaming 206 ⟨"video/mp4", "bytes", 411, 90, 500, 100⟩ 90 500 ∧
    stream_video 100 (some "bytes=90-500") ≠
      .streaming 206 ⟨"video/mp4", "bytes", 10, 90, 99, 100⟩ 90 99 := by
  constructor
  · decide
  · decide

/-- C1 amended: the end byte is never clamped: whenever the header
parses to start a and end b with 0 ≤ a < file_size, the handler streams
the range a..b verbatim, so for b ≥ file_size the Content-Length and
Content-Range headers reflect the oversized end byte b, not
min b (file_size - 1). -/
theorem stream_video_end_not_clamped (file_size a b : Int) (range : Option String)
    (hres : resolve_range file_size range = .ok a b)
    (h0 : 0 ≤ a) (hS : a < file_size) (hb : file_size ≤ b) :
    stream_video file_size range =
      .streaming 206 ⟨"video/mp4", "bytes", b - a + 1, a, b, file_size⟩ a b := by
  simp only [stream_video, hres]
  rw [if_neg (by omega)]

/-- Instance of the unclamped-end behaviour at the claim's own numbers:
size 100, header bytes=90-500, served end byte 500. -/
theorem stream_video_end_not_clamped_witness :
    resolve_range 100 (some "bytes=90-500") = .ok 90 500 ∧
    stream_video 100 (some "bytes=90-500") =
      .streaming 206 ⟨"video/mp4", "bytes", 411, 90, 500, 100⟩ 90 500 :=
  ⟨by decide, stream_video_end_not_clamped 100 90 500 (some "bytes=90-500") (by decide)
    (by decide) (by decide) (by decide)⟩

/-- C2 counterexample: with no Range header and a 100-byte object the
handler responds 206, not 200. -/
theorem stream_video_full_object_206_cex :
    (stream_video 100 none).statusOf = 206 ∧ (stream_video 100 none).statusOf ≠ 200 := by
  constructor
  · decide
  · decide

/-- C2 amended: every streaming response is issued with status 206 (the
source passes HTTP_206_PARTIAL_CONTENT to StreamingResponse
unconditionally), so 200 is never used, even when no range was
requested and the resolved range is the full object. -/
theorem stream_video_always_206 (file_size : Int) (range : Option String)
    (st : Nat) (hdrs : StreamHeaders) (s e : Int)
    (h : stream_video file_size range = .streaming st hdrs s e) : st = 206 := by
  simp only [stream_video] at h
  cases hres : resolve_range file_size range with
  | valueError =>
    simp only [hres] at h
    exact StreamResult.noConfusion h
  | ok a b =>
    simp only [hres] at h
    by_cases hc : a ≥ file_size ∨ a < 0
    · rw [if_pos hc] at h
      exact StreamResult.noConfusion h
    · rw [if_neg hc] at h
      injection h with h1 h2 h3 h4
      exact h1.symm

/-- Instance of the always-206 behaviour: no Range header, full object,
status is still 206. -/
theorem stream_video_always_206_witness :
    stream_video 100 none =
      .streaming 206 ⟨"video/mp4", "bytes", 100, 0, 99, 100⟩ 0 99 ∧ (206 : Nat) = 206 :=
  ⟨by decide, stream_video_always_206 100 none 206
    ⟨"video/mp4", "bytes", 100, 0, 99, 100⟩ 0 99 (by decide)⟩

/-- C5: the malformed header bytes=abc-10 makes int() raise an uncaught
ValueError, which the framework surfaces as a 500-class server error —
not the classified RangeError::Malformed mapped to HTTP 400 that the
claim states. -/
theorem stream_video_malformed_uncaught :
    stream_video 100 (some "bytes=abc-10") = .valueError ∧
    (stream_video 100 (some "bytes=abc-10")).statusOf = 500 ∧
    (stream_video 100 (some "bytes=abc-10")).statusOf ≠ 400 := by
  refine ⟨by decide, by decide, by decide⟩

/-- C6: once the header parses to start s and end e, the handler raises
the bare 416 HTTPException — carrying no streaming headers and no
body — exactly when s ≥ file_size or s < 0; otherwise the 416 branch is
not taken and the 206 streaming response is assembled. -/
theorem stream_video_unsatisfiable_416 (file_size : Int) (range : Option String) (s e : Int)
    (hres : resolve_range file_size range = .ok s e) :
    (s ≥ file_size ∨ s < 0 → stream_video file_size range = .httpError 416) ∧
    (¬(s ≥ file_size ∨ s < 0) →
      stream_video file_size range =
        .streaming 206 ⟨"video/mp4", "bytes", e - s + 1, s, e, file_size⟩ s e) := by
  constructor
  · intro hc
    simp only [stream_video, hres]
    rw [if_pos hc]
  · intro hc
    simp only [stream_video, hres]
    rw [if_neg hc]

/-- Instance of the 416 branch: size 100, header bytes=150- parses to
start 150 ≥ 100 and the handler raises 416. -/
theorem stream_video_unsatisfiable_416_witness :
    resolve_range 100 (some "bytes=150-") = .ok 150 99 ∧
    stream_video 100 (some "bytes=150-") = .httpError 416 :=
  ⟨by decide,
    (stream_video_unsatisfiable_416 100 (some "bytes=150-") 150 99 (by decide)).1 (by decide)⟩

/-- C7: an absent header resolves to the full-object range
0..file_size - 1; a present open-ended header — one whose form after
stripping the bytes= literal splits on the dash into a start part and
an empty second part, the start part parsing to a — resolves to
a..file_size - 1; concretely bytes=50- at size 100 resolves to 50..99. -/
theorem resolve_range_defaults (file_size : Int) (hS : 0 < file_size) :
    resolve_range file_size none = .ok 0 (file_size - 1) ∧
    (∀ (hdr : String) (s1 : List Char) (a : Int),
      hdr.data ≠ [] →
      splitOnChar '-' (replaceAll BYTES_EQ [] hdr.data) = [s1, []] →
      pyInt s1 = some a → 0 ≤ a → a < file_size →
      resolve_range file_size (some hdr) = .ok a (file_size - 1)) ∧
    resolve_range 100 (some "bytes=50-") = .ok 50 99 := by
  refine ⟨rfl, ?_, by decide⟩
  intro hdr s1 a hne hsplit hparse h0 hlt
  simp only [resolve_range, if_neg hne, hsplit]
  simp [hparse]

/-- Instances of the default resolutions: no header at size 100 gives
0..99, and the open-ended bytes=50- gives 50..99. -/
theorem resolve_range_defaults_witness :
    resolve_range 100 none = .ok 0 99 ∧ resolve_range 100 (some "bytes=50-") = .ok 50 99 :=
  ⟨(resolve_range_defaults 100 (by decide)).1, (resolve_range_defaults 100 (by decide)).2.2⟩

/-- C9: a zero-size object with no Range header defaults to start 0 and
end -1; the check start_byte >= file_size fires (0 >= 0), so the
handler raises the bare 416 HTTPException: no streaming response is
built, hence no 200/206 headers and no chunks. -/
theorem stream_video_empty_object_416 : stream_video 0 none = .httpError 416 := by decide

end VidShare
